import Mathlib

/-!
Verification of the noise-generation and animation-control logic of
`src/Project.cpp` (Fire & Smoke interactive shader), shallowly embedded in
Lean 4.  Machine floating-point values are modelled as exact rationals; the
GPU fragment shader's FBM loop is modelled over an abstract sampler; the
render loop's interactive state is modelled as explicit state passing over a
per-tick input record.
-/

set_option maxRecDepth 16384

namespace FireSmoke

/-- `fade` from Project.cpp line 57: `t * t * t * (t * (t * 6 - 15) + 10)`.
Stated over an arbitrary commutative ring so that the very same definition
serves the rational-valued noise evaluation and the real-analytic facts about
the easing polynomial. -/
def fade {R : Type} [CommRing R] (t : R) : R := t * t * t * (t * (t * 6 - 15) + 10)

/-- `lerp` from Project.cpp line 58: `a + t * (b - a)`. -/
def lerp (a b t : ℚ) : ℚ := a + t * (b - a)

/-- `grad` from Project.cpp lines 59-64.  `hash & 15` is `hash % 16` and the
bit tests `h & 1`, `h & 2` are parity tests on `h` and `h / 2`. -/
def grad (hash : ℕ) (x y z : ℚ) : ℚ :=
  let h := hash % 16
  let u := if h < 8 then x else y
  let v := if h < 4 then y else if h = 12 ∨ h = 14 then x else z
  (if h % 2 = 1 then -u else u) + (if h / 2 % 2 = 1 then -v else v)

/-- One step of `std::minstd_rand0` (libstdc++'s `std::default_random_engine`):
`x ↦ 16807·x mod (2³¹ − 1)`. -/
def minstdNext (s : ℕ) : ℕ := 16807 * s % 2147483647

/-- `minstd_rand0` seeding: the seed is reduced mod `2³¹ − 1`, and a residue of
`0` is replaced by `1`. -/
def minstdSeed (seed : ℕ) : ℕ :=
  if seed % 2147483647 = 0 then 1 else seed % 2147483647

/-- `std::swap(p[i], p[j])` on the vector contents: position `i` receives the
old value at `j` and position `j` the old value at `i` (reading both from the
original list, as a simultaneous swap does). -/
def swapL (l : List ℕ) (i j : ℕ) : List ℕ :=
  (l.set i (l.getD j 0)).set j (l.getD i 0)

/-- The rejection loop of libstdc++'s `uniform_int_distribution::operator()`
(the fallback "2 divisions" downscaling branch of `bits/uniform_int_dist.h`,
the one taken on `minstd_rand0`, whose output range `[1, 2³¹−2]` is neither
exactly 32 nor 64 bits wide): `do __ret = __g() - 1; while (__ret >= __past);
__ret /= __scaling;`.  The second component threads the engine state.  The
loop carries fuel; a rejection needs a raw draw in the final partial bucket
(probability below `2⁻¹⁵` for every range used by the shuffle), and exhausted
fuel returns 0, which is in range. -/
def drawLoop : ℕ → ℕ → ℕ → ℕ → ℕ × ℕ
  | 0, _, _, s => (0, s)
  | fuel + 1, scaling, past, s =>
      let s' := minstdNext s
      if s' - 1 < past then ((s' - 1) / scaling, s')
      else drawLoop fuel scaling past s'

/-- `std::uniform_int_distribution{0, k}` applied to `minstd_rand0`
(`bits/uniform_int_dist.h`).  The generator range is
`__urngrange = max − min = (2³¹−2) − 1 = 2147483645 > k` for every `k` the
shuffle uses, so the downscaling branch runs with
`__scaling = 2147483645 / (k+1)` and `__past = (k+1) · __scaling`. -/
def uniformInt (k s : ℕ) : ℕ × ℕ :=
  drawLoop 100 (2147483645 / (k + 1)) ((k + 1) * (2147483645 / (k + 1))) s

/-- `std::shuffle(p.begin(), p.end(), engine)` of Project.cpp line 72, as
libstdc++ (`bits/stl_algo.h`) executes it for a 256-element vector and
`std::default_random_engine = minstd_rand0`: since
`__urngrange / 256 ≥ 256` the paired path is taken, and 256 being even it
first swaps position 1 with a `uniform_int_distribution{0,1}` draw… -/
def shuffleHead (p : List ℕ × ℕ) : List ℕ × ℕ :=
  let d := uniformInt 1 p.2
  (swapL p.1 1 d.1, d.2)

/-- …and then, for `__i = 2, 4, …, 254` (with `__swap_range = __i + 1`), one
`__gen_two_uniform_ints(__swap_range, __swap_range + 1, __g)` invocation draws
`__x` uniform over `[0, (i+1)(i+2) − 1]` and swaps position `i` with
`__x / (i+2)` and position `i+1` with `__x mod (i+2)` (`bits/stl_algo.h`). -/
def shufflePair (p : List ℕ × ℕ) (i : ℕ) : List ℕ × ℕ :=
  let d := uniformInt ((i + 1) * (i + 2) - 1) p.2
  (swapL (swapL p.1 i (d.1 / (i + 2))) (i + 1) (d.1 % (i + 2)), d.2)

/-- The shuffle state (table contents and engine state) after the head swap
and the first `k` pair steps (pair `k` works on positions `2 + 2k` and
`3 + 2k`), starting from the `std::iota` identity table `0..255` of
Project.cpp lines 69-70 and the engine seeded as in line 71.  The full
shuffle is `k = 127`. -/
def shuffleFold (seed k : ℕ) : List ℕ × ℕ :=
  (List.range' 2 k 2).foldl shufflePair (shuffleHead (List.range 256, minstdSeed seed))

/-- The first 256 entries of the table `p` built by
`PerlinNoise3D::PerlinNoise3D` (Project.cpp lines 68-74): `std::iota` filling
`0..255` followed by the full `std::shuffle` (head swap plus 127 pair
steps). -/
def permList (seed : ℕ) : List ℕ := (shuffleFold seed 127).1

/-- The full 512-entry table: `p.insert(p.end(), p.begin(), p.end())`
(Project.cpp line 73) appends a copy of the shuffled first half. -/
def permTable (seed : ℕ) : List ℕ := permList seed ++ permList seed

/-- `PerlinNoise3D::noise` (Project.cpp lines 76-99).  `(int)floor(x) & 255` is
`⌊x⌋ mod 256` (the bit mask on a two's-complement int agrees with the
non-negative remainder, also for negative arguments); `x -= floor(x)` leaves
the fractional part; vector indexing `p[i]` is modelled as `List.getD` with
default 0 (every index is in bounds, see the claim about table accesses). -/
def noise (p : List ℕ) (x y z : ℚ) : ℚ :=
  let X := (⌊x⌋ % 256).toNat
  let Y := (⌊y⌋ % 256).toNat
  let Z := (⌊z⌋ % 256).toNat
  let xf := x - ⌊x⌋
  let yf := y - ⌊y⌋
  let zf := z - ⌊z⌋
  let u := fade xf
  let v := fade yf
  let w := fade zf
  let A := p.getD X 0 + Y
  let AA := p.getD A 0 + Z
  let AB := p.getD (A + 1) 0 + Z
  let B := p.getD (X + 1) 0 + Y
  let BA := p.getD B 0 + Z
  let BB := p.getD (B + 1) 0 + Z
  lerp
    (lerp
      (lerp (grad (p.getD AA 0) xf yf zf) (grad (p.getD BA 0) (xf - 1) yf zf) u)
      (lerp (grad (p.getD AB 0) xf (yf - 1) zf)
        (grad (p.getD BB 0) (xf - 1) (yf - 1) zf) u)
      v)
    (lerp
      (lerp (grad (p.getD (AA + 1) 0) xf yf (zf - 1))
        (grad (p.getD (BA + 1) 0) (xf - 1) yf (zf - 1)) u)
      (lerp (grad (p.getD (AB + 1) 0) xf (yf - 1) (zf - 1))
        (grad (p.getD (BB + 1) 0) (xf - 1) (yf - 1) (zf - 1)) u)
      v)
    w

/-- The fourteen permutation-table indices used by `noise` (Project.cpp lines
86-96), computed exactly as in `noise`: `X`, `X+1`, `A`, `A+1`, `B`, `B+1`,
`AA`, `AA+1`, `AB`, `AB+1`, `BA`, `BA+1`, `BB`, `BB+1`. -/
def noiseIndices (p : List ℕ) (x y z : ℚ) : List ℕ :=
  let X := (⌊x⌋ % 256).toNat
  let Y := (⌊y⌋ % 256).toNat
  let Z := (⌊z⌋ % 256).toNat
  let A := p.getD X 0 + Y
  let AA := p.getD A 0 + Z
  let AB := p.getD (A + 1) 0 + Z
  let B := p.getD (X + 1) 0 + Y
  let BA := p.getD B 0 + Z
  let BB := p.getD (B + 1) 0 + Z
  [X, X + 1, A, A + 1, B, B + 1, AA, AA + 1, AB, AB + 1, BA, BA + 1, BB, BB + 1]

/-- The CPU side of `create3DNoiseTexture` (Project.cpp lines 115-122): the
lattice data written into `data`, cell `idx = z·size² + y·size + x` (`x`
fastest, matching the nesting of the triple loop and `idx++`), each cell
`0.5 + 0.5 * noise(x·f, y·f, z·f)`.  The constructor call `PerlinNoise3D
perlin;` uses the default seed 237; the spec-level `generate_noise_lattice`
exposes the seed, so it is a parameter here and the program instantiates it at
237.  The source computes `size * size * size` and `idx` in 32-bit `int`;
this model's unbounded arithmetic agrees with it whenever `size³ < 2³¹`
(the program itself uses size 256, and every size appearing in the theorems
below is at most 32). -/
def generate_noise_lattice (seed size : ℕ) (frequency : ℚ) : List ℚ :=
  (List.range (size * size * size)).map fun idx =>
    let z := idx / (size * size)
    let y := idx / size % size
    let x := idx % size
    1/2 + 1/2 * noise (permTable seed) (x * frequency) (y * frequency) (z * frequency)

/-- Componentwise scaling of a 3-vector; `p *= 2.0` in the shader. -/
def scale3 (c : ℚ) (p : ℚ × ℚ × ℚ) : ℚ × ℚ × ℚ := (c * p.1, c * p.2.1, c * p.2.2)

/-- The loop body of `fbm` in the fragment shader (Project.cpp lines 155-164)
over an abstract sampler `tex` standing for the GPU collaborator
`texture(noiseTex, p).r`: state `(v, a, p)`, each iteration
`v += a * tex p; p *= 2.0; a *= 0.5`. -/
def fbmLoop (tex : ℚ × ℚ × ℚ → ℚ) : ℕ → ℚ → ℚ → ℚ × ℚ × ℚ → ℚ
  | 0, v, _, _ => v
  | n + 1, v, a, p => fbmLoop tex n (v + a * tex p) (a * (1/2)) (scale3 2 p)

/-- `fbm` (Project.cpp lines 155-164): 6 octaves, initial `v = 0.0`,
`a = 0.5`. -/
def fbm (tex : ℚ × ℚ × ℚ → ℚ) (p : ℚ × ℚ × ℚ) : ℚ := fbmLoop tex 6 0 (1/2) p

/-- The inputs one iteration of the render loop reads: which of the relevant
keys are down this polling tick (`glfwGetKey(...) == GLFW_PRESS`) and the
wall-clock reading `glfwGetTime()` during the tick.  `plus` covers
`GLFW_KEY_EQUAL`/`GLFW_KEY_KP_ADD`, `minus` covers
`GLFW_KEY_MINUS`/`GLFW_KEY_KP_SUBTRACT`. -/
structure InputFrame where
  space : Bool
  plus : Bool
  minus : Bool
  cKey : Bool
  rKey : Bool
  wallTime : ℚ

/-- The interactive state of `main` (Project.cpp lines 314-322): the pause
flag, the frozen time reference `baseTime`, the speed multiplier, the colour
mode, and the per-key "was down last tick" flags. -/
structure AnimState where
  paused : Bool
  baseTime : ℚ
  speed : ℚ
  colorMode : ℕ
  keySpacePressed : Bool
  keyCPressed : Bool
  keyRPressed : Bool

/-- The initial values of Project.cpp lines 315-322. -/
def initState : AnimState :=
  { paused := false, baseTime := 0, speed := 1, colorMode := 0,
    keySpacePressed := false, keyCPressed := false, keyRPressed := false }

/-- The SPACE pause-toggle block (Project.cpp lines 328-337): edge-triggered
through `keySpacePressed`; on a toggle out of Playing, `baseTime` captures the
current wall clock. -/
def stepSpace (s : AnimState) (f : InputFrame) : AnimState :=
  if f.space then
    if !s.keySpacePressed then
      { s with paused := !s.paused,
               baseTime := if !s.paused then f.wallTime else s.baseTime,
               keySpacePressed := true }
    else s
  else { s with keySpacePressed := false }

/-- The `+` speed block (Project.cpp lines 340-343): level-triggered, runs
every polling tick the key is down. -/
def stepSpeedUp (s : AnimState) (f : InputFrame) : AnimState :=
  if f.plus then { s with speed := min (s.speed + 1/10) 3 } else s

/-- The `-` speed block (Project.cpp lines 344-347): level-triggered. -/
def stepSpeedDown (s : AnimState) (f : InputFrame) : AnimState :=
  if f.minus then { s with speed := max (s.speed - 1/10) (1/10) } else s

/-- The C colour-mode block (Project.cpp lines 350-358): edge-triggered. -/
def stepColor (s : AnimState) (f : InputFrame) : AnimState :=
  if f.cKey then
    if !s.keyCPressed then
      { s with colorMode := (s.colorMode + 1) % 3, keyCPressed := true }
    else s
  else { s with keyCPressed := false }

/-- The R reset block (Project.cpp lines 361-371): edge-triggered, restores
speed 1.0, colour mode 0, and unpauses. -/
def stepReset (s : AnimState) (f : InputFrame) : AnimState :=
  if f.rKey then
    if !s.keyRPressed then
      { s with speed := 1, colorMode := 0, paused := false, keyRPressed := true }
    else s
  else { s with keyRPressed := false }

/-- The whole input-handling block of the render loop (Project.cpp lines
328-371), executed once per polling tick, the five key blocks in source
order. -/
def stepInput (s : AnimState) (f : InputFrame) : AnimState :=
  stepReset (stepColor (stepSpeedDown (stepSpeedUp (stepSpace s f) f) f) f) f

/-- Project.cpp line 377, `float time = paused ? baseTime : glfwGetTime();`,
evaluated after the input handling of the same tick (so on the state
`stepInput s f`). -/
def frameTime (s : AnimState) (f : InputFrame) : ℚ :=
  if s.paused then s.baseTime else f.wallTime

/-- Project.cpp line 378: the `time` uniform handed to the compositor is
`time * speed`. -/
def timeUniform (s : AnimState) (f : InputFrame) : ℚ := frameTime s f * s.speed

/-- Folding the input handler over a sequence of polling ticks. -/
def run (s : AnimState) (fs : List InputFrame) : AnimState := fs.foldl stepInput s

/-- The per-frame `time` value (line 377) of each tick of a run. -/
def frameTimes (s : AnimState) : List InputFrame → List ℚ
  | [] => []
  | f :: fs => frameTime (stepInput s f) f :: frameTimes (stepInput s f) fs

/-! ### Permutation-table invariants -/

theorem count_set (l : List ℕ) (n v a : ℕ) (hn : n < l.length) :
    (l.set n v).count a + (if l[n] = a then 1 else 0) =
      l.count a + (if v = a then 1 else 0) := by
  rw [List.set_eq_take_cons_drop v hn]
  conv_rhs => rw [← List.take_append_drop n l, List.drop_eq_getElem_cons hn]
  simp only [List.count_append, List.count_cons, beq_iff_eq]
  split_ifs <;> omega

theorem count_swapL (l : List ℕ) (i j a : ℕ) (hi : i < l.length)
    (hj : j < l.length) : (swapL l i j).count a = l.count a := by
  have hgi : l.getD i 0 = l[i] := List.getD_eq_getElem _ _ hi
  have hgj : l.getD j 0 = l[j] := List.getD_eq_getElem _ _ hj
  unfold swapL
  rw [hgi, hgj]
  have hj' : j < (l.set i l[j]).length := by simpa using hj
  have h1 := count_set (l.set i l[j]) j l[i] a hj'
  have h2 := count_set l i l[j] a hi
  rw [List.getElem_set] at h1
  by_cases hij : i = j
  · subst hij
    rw [if_pos rfl] at h1
    split_ifs at h1 h2 <;> omega
  · rw [if_neg hij] at h1
    split_ifs at h1 h2 <;> omega

theorem swapL_perm (l : List ℕ) (i j : ℕ) (hi : i < l.length)
    (hj : j < l.length) : (swapL l i j).Perm l :=
  List.perm_iff_count.mpr fun a => count_swapL l i j a hi hj

theorem drawLoop_fst_lt (fuel scaling past s u : ℕ)
    (hp : past = u * scaling) (hu : 0 < u) :
    (drawLoop fuel scaling past s).1 < u := by
  induction fuel generalizing s with
  | zero => simpa [drawLoop] using hu
  | succ fuel ih =>
      simp only [drawLoop]
      split_ifs with h
      · exact Nat.div_lt_of_lt_mul (by rw [Nat.mul_comm] at hp; omega)
      · exact ih _

theorem uniformInt_fst_le (k s : ℕ) (hk : k < 2147483645) :
    (uniformInt k s).1 ≤ k := by
  have h := drawLoop_fst_lt 100 (2147483645 / (k + 1))
    ((k + 1) * (2147483645 / (k + 1))) s (k + 1) (by ring) (by omega)
  unfold uniformInt
  omega

theorem shuffleHead_perm (p : List ℕ × ℕ)
    (hp : p.1.Perm (List.range 256)) :
    ((shuffleHead p).1).Perm (List.range 256) := by
  have hlen : p.1.length = 256 := by simpa using hp.length_eq
  have hj : (uniformInt 1 p.2).1 ≤ 1 := uniformInt_fst_le 1 p.2 (by norm_num)
  simp only [shuffleHead]
  exact (swapL_perm _ _ _ (by omega) (by omega)).trans hp

theorem shufflePair_perm (p : List ℕ × ℕ) (i : ℕ) (hi : i + 1 < 256)
    (hp : p.1.Perm (List.range 256)) :
    ((shufflePair p i).1).Perm (List.range 256) := by
  have hlen : p.1.length = 256 := by simpa using hp.length_eq
  have hx : (uniformInt ((i + 1) * (i + 2) - 1) p.2).1 ≤ (i + 1) * (i + 2) - 1 := by
    refine uniformInt_fst_le _ _ ?_
    have hm : (i + 1) * (i + 2) ≤ 256 * 257 := Nat.mul_le_mul (by omega) (by omega)
    omega
  have hpos : 0 < (i + 1) * (i + 2) := by positivity
  have hdiv : (uniformInt ((i + 1) * (i + 2) - 1) p.2).1 / (i + 2) ≤ i := by
    have h2 : (uniformInt ((i + 1) * (i + 2) - 1) p.2).1 < (i + 2) * (i + 1) := by
      rw [Nat.mul_comm (i + 2) (i + 1)]
      omega
    have h3 := Nat.div_lt_of_lt_mul h2
    omega
  have hmod : (uniformInt ((i + 1) * (i + 2) - 1) p.2).1 % (i + 2) < i + 2 :=
    Nat.mod_lt _ (by omega)
  have hinner : (swapL p.1 i
      ((uniformInt ((i + 1) * (i + 2) - 1) p.2).1 / (i + 2))).Perm p.1 :=
    swapL_perm _ _ _ (by omega) (by omega)
  have hilen : (swapL p.1 i
      ((uniformInt ((i + 1) * (i + 2) - 1) p.2).1 / (i + 2))).length = 256 := by
    rw [hinner.length_eq, hlen]
  simp only [shufflePair]
  exact (swapL_perm _ _ _ (by omega) (by omega)).trans (hinner.trans hp)

theorem shuffleFold_succ (seed k : ℕ) :
    shuffleFold seed (k + 1) = shufflePair (shuffleFold seed k) (2 + 2 * k) := by
  unfold shuffleFold
  rw [List.range'_concat, List.foldl_append]
  simp

theorem shuffleFold_perm (seed k : ℕ) (hk : k ≤ 127) :
    ((shuffleFold seed k).1).Perm (List.range 256) := by
  induction k with
  | zero =>
      unfold shuffleFold
      simp only [List.range'_zero, List.foldl_nil]
      exact shuffleHead_perm _ (List.Perm.refl _)
  | succ k ih =>
      rw [shuffleFold_succ]
      exact shufflePair_perm _ _ (by omega) (ih (by omega))

theorem permList_perm (seed : ℕ) : (permList seed).Perm (List.range 256) :=
  shuffleFold_perm seed 127 (by norm_num)

theorem permList_length (seed : ℕ) : (permList seed).length = 256 := by
  simpa using (permList_perm seed).length_eq

theorem permList_nodup (seed : ℕ) : (permList seed).Nodup :=
  ((permList_perm seed).nodup_iff).mpr (List.nodup_range 256)

theorem permList_mem_iff (seed : ℕ) (v : ℕ) : v ∈ permList seed ↔ v < 256 := by
  rw [(permList_perm seed).mem_iff, List.mem_range]

theorem permList_count (seed : ℕ) (v : ℕ) (hv : v < 256) :
    (permList seed).count v = 1 :=
  List.count_eq_one_of_mem (permList_nodup seed) ((permList_mem_iff seed v).mpr hv)

theorem getD_doubled (l : List ℕ) (i : ℕ) (hi : i < l.length) :
    (l ++ l).getD (l.length + i) 0 = (l ++ l).getD i 0 := by
  rw [List.getD_append_right _ _ _ _ (Nat.le_add_right _ _),
    List.getD_append _ _ _ _ hi]
  congr 1
  omega

/-- C2: after construction (for any seed) the table has exactly 512 entries,
its first 256 entries contain every value of `0..255` exactly once, entry
`256 + i` equals entry `i` for every `i < 256`, and every value `0..255`
appears exactly twice across the 512 entries. -/
theorem permTable_valid (seed : ℕ) :
    (permTable seed).length = 512 ∧
    (permTable seed).take 256 = permList seed ∧
    (∀ v, v < 256 → ((permTable seed).take 256).count v = 1) ∧
    (∀ i, i < 256 → (permTable seed).getD (256 + i) 0 = (permTable seed).getD i 0) ∧
    (∀ v, v < 256 → (permTable seed).count v = 2) := by
  have hlen := permList_length seed
  have htake : (permTable seed).take 256 = permList seed := by
    unfold permTable
    rw [← hlen, List.take_left]
  refine ⟨?_, htake, ?_, ?_, ?_⟩
  · simp [permTable, hlen]
  · intro v hv
    rw [htake]
    exact permList_count seed v hv
  · intro i hi
    have hd := getD_doubled (permList seed) i (by omega)
    rw [hlen] at hd
    exact hd
  · intro v hv
    unfold permTable
    rw [List.count_append, permList_count seed v hv]

/-- C2 witness: the instance at seed 237, value 0, index 0. -/
theorem permTable_valid_witness :
    (permTable 237).length = 512 ∧
    (permTable 237).take 256 = permList 237 ∧
    ((permTable 237).take 256).count 0 = 1 ∧
    (permTable 237).getD (256 + 0) 0 = (permTable 237).getD 0 0 ∧
    (permTable 237).count 0 = 2 := by
  obtain ⟨h1, h2, h3, h4, h5⟩ := permTable_valid 237
  exact ⟨h1, h2, h3 0 (by norm_num), h4 0 (by norm_num), h5 0 (by norm_num)⟩

theorem permTable_getD_lt (seed n : ℕ) : (permTable seed).getD n 0 < 256 := by
  by_cases h : n < (permTable seed).length
  · rw [List.getD_eq_getElem _ _ h]
    have hm : (permTable seed)[n] ∈ permTable seed := List.getElem_mem h
    unfold permTable at hm
    rcases List.mem_append.mp hm with hm | hm <;>
      exact (permList_mem_iff seed _).mp hm
  · rw [List.getD_eq_default _ _ (by omega)]
    norm_num

/-- C10: every permutation-table index computed inside `noise` lies within
`[0, 511]`, for every seed and all (finite, here: rational) inputs, so no
table access is out of bounds. -/
theorem noise_table_access_in_bounds (seed : ℕ) (x y z : ℚ) :
    (noiseIndices (permTable seed) x y z).all (fun i => i < 512) = true := by
  have hp : ∀ n, (permTable seed).getD n 0 < 256 := permTable_getD_lt seed
  have hcoord : ∀ q : ℚ, (⌊q⌋ % 256).toNat < 256 := by
    intro q
    have h1 : (0 : ℤ) ≤ ⌊q⌋ % 256 := Int.emod_nonneg _ (by norm_num)
    have h2 : ⌊q⌋ % 256 < 256 := Int.emod_lt_of_pos _ (by norm_num)
    omega
  have hX := hcoord x
  have hY := hcoord y
  have hZ := hcoord z
  have b1 := hp ((⌊x⌋ % 256).toNat)
  have b2 := hp ((⌊x⌋ % 256).toNat + 1)
  have b3 := hp ((permTable seed).getD (⌊x⌋ % 256).toNat 0 + (⌊y⌋ % 256).toNat)
  have b4 := hp ((permTable seed).getD (⌊x⌋ % 256).toNat 0 + (⌊y⌋ % 256).toNat + 1)
  have b5 := hp ((permTable seed).getD ((⌊x⌋ % 256).toNat + 1) 0 + (⌊y⌋ % 256).toNat)
  have b6 := hp ((permTable seed).getD ((⌊x⌋ % 256).toNat + 1) 0 + (⌊y⌋ % 256).toNat + 1)
  simp only [noiseIndices, List.all_cons, List.all_nil, Bool.and_eq_true,
    decide_eq_true_eq, and_true]
  refine ⟨by omega, by omega, by omega, by omega, by omega, by omega, by omega,
    by omega, by omega, by omega, by omega, by omega, by omega, by omega⟩

/-- C1: noise generation is deterministic in the seed — equal seeds give
entry-for-entry equal permutation tables and element-for-element equal
lattices; in particular the `seed = 237`, `size = 8`, `frequency = 1/10`
lattice is reproduced identically by a second run. -/
theorem noise_generation_deterministic (seed₁ seed₂ size₁ size₂ : ℕ) (f₁ f₂ : ℚ)
    (hs : seed₁ = seed₂) (hsize : size₁ = size₂) (hf : f₁ = f₂) :
    (∀ i, (permTable seed₁).getD i 0 = (permTable seed₂).getD i 0) ∧
    (∀ i, (generate_noise_lattice seed₁ size₁ f₁).getD i 0 =
      (generate_noise_lattice seed₂ size₂ f₂).getD i 0) ∧
    generate_noise_lattice 237 8 (1/10) = generate_noise_lattice 237 8 (1/10) := by
  subst hs; subst hsize; subst hf
  exact ⟨fun _ => rfl, fun _ => rfl, rfl⟩

/-- C1 witness: both runs at seed 237, size 8, frequency 1/10 agree. -/
theorem noise_generation_deterministic_witness :
    (∀ i, (permTable 237).getD i 0 = (permTable 237).getD i 0) ∧
    (∀ i, (generate_noise_lattice 237 8 (1/10)).getD i 0 =
      (generate_noise_lattice 237 8 (1/10)).getD i 0) ∧
    generate_noise_lattice 237 8 (1/10) = generate_noise_lattice 237 8 (1/10) :=
  noise_generation_deterministic 237 237 8 8 (1/10) (1/10) rfl rfl rfl

/-! ### Range of the generated lattice values -/

theorem fade_mem_unit {t : ℚ} (h0 : 0 ≤ t) (h1 : t ≤ 1) :
    0 ≤ fade t ∧ fade t ≤ 1 := by
  unfold fade
  constructor
  · nlinarith [sq_nonneg t, sq_nonneg (t - 1), mul_nonneg (mul_nonneg h0 h0) h0]
  · nlinarith [mul_nonneg (mul_nonneg (sub_nonneg.mpr h1) (sub_nonneg.mpr h1))
      (sub_nonneg.mpr h1), sq_nonneg t, mul_nonneg h0 h0]

theorem grad_abs_le (h : ℕ) {x y z : ℚ} (hx : |x| ≤ 1) (hy : |y| ≤ 1)
    (hz : |z| ≤ 1) : |grad h x y z| ≤ 2 := by
  simp only [grad]
  split_ifs <;>
    refine (abs_add _ _).trans ?_ <;>
    (try simp only [abs_neg]) <;>
    linarith

theorem lerp_abs_le {c a b t : ℚ} (ha : |a| ≤ c) (hb : |b| ≤ c)
    (ht0 : 0 ≤ t) (ht1 : t ≤ 1) : |lerp a b t| ≤ c := by
  rw [abs_le] at ha hb ⊢
  unfold lerp
  constructor <;>
    nlinarith [mul_nonneg ht0 (by linarith : 0 ≤ b + c),
      mul_nonneg ht0 (by linarith : 0 ≤ c - b),
      mul_nonneg (by linarith : (0:ℚ) ≤ 1 - t) (by linarith : 0 ≤ a + c),
      mul_nonneg (by linarith : (0:ℚ) ≤ 1 - t) (by linarith : 0 ≤ c - a)]

theorem fract_nonneg' (q : ℚ) : 0 ≤ q - ⌊q⌋ := by
  have := Int.floor_le q
  linarith

theorem fract_lt_one' (q : ℚ) : q - ⌊q⌋ < 1 := by
  have := Int.lt_floor_add_one q
  push_cast at this ⊢
  linarith

/-- The raw gradient-noise value is always within `[-2, 2]`: the easing values
are in `[0,1]`, every `grad` value is a signed sum of two offset coordinates
each of absolute value at most 1, and `lerp` with weight in `[0,1]` stays
within the bounds of its endpoints. -/
theorem noise_abs_le (p : List ℕ) (x y z : ℚ) : |noise p x y z| ≤ 2 := by
  have hx0 := fract_nonneg' x
  have hx1 := fract_lt_one' x
  have hy0 := fract_nonneg' y
  have hy1 := fract_lt_one' y
  have hz0 := fract_nonneg' z
  have hz1 := fract_lt_one' z
  have axf : |x - ⌊x⌋| ≤ 1 := abs_le.mpr ⟨by linarith, by linarith⟩
  have axf1 : |x - ⌊x⌋ - 1| ≤ 1 := abs_le.mpr ⟨by linarith, by linarith⟩
  have ayf : |y - ⌊y⌋| ≤ 1 := abs_le.mpr ⟨by linarith, by linarith⟩
  have ayf1 : |y - ⌊y⌋ - 1| ≤ 1 := abs_le.mpr ⟨by linarith, by linarith⟩
  have azf : |z - ⌊z⌋| ≤ 1 := abs_le.mpr ⟨by linarith, by linarith⟩
  have azf1 : |z - ⌊z⌋ - 1| ≤ 1 := abs_le.mpr ⟨by linarith, by linarith⟩
  have hu := fade_mem_unit hx0 (le_of_lt hx1)
  have hv := fade_mem_unit hy0 (le_of_lt hy1)
  have hw := fade_mem_unit hz0 (le_of_lt hz1)
  unfold noise
  exact lerp_abs_le
    (lerp_abs_le
      (lerp_abs_le (grad_abs_le _ axf ayf azf) (grad_abs_le _ axf1 ayf azf)
        hu.1 hu.2)
      (lerp_abs_le (grad_abs_le _ axf ayf1 azf) (grad_abs_le _ axf1 ayf1 azf)
        hu.1 hu.2)
      hv.1 hv.2)
    (lerp_abs_le
      (lerp_abs_le (grad_abs_le _ axf ayf azf1) (grad_abs_le _ axf1 ayf azf1)
        hu.1 hu.2)
      (lerp_abs_le (grad_abs_le _ axf ayf1 azf1) (grad_abs_le _ axf1 ayf1 azf1)
        hu.1 hu.2)
      hv.1 hv.2)
    hw.1 hw.2

/-- C3 amended: every stored lattice cell lies in `[-1/2, 3/2]` (the raw noise
value lies in `[-2, 2]` and the cell stores `0.5 + 0.5 · noise`); the claimed
`[0, 1]` bound does not hold — see the counterexample. -/
theorem lattice_cell_bounds (seed size : ℕ) (frequency : ℚ) :
    ∀ c ∈ generate_noise_lattice seed size frequency, -(1/2) ≤ c ∧ c ≤ 3/2 := by
  intro c hc
  simp only [generate_noise_lattice, List.mem_map] at hc
  obtain ⟨idx, -, rfl⟩ := hc
  have h := abs_le.mp (noise_abs_le (permTable seed)
    ((idx % size : ℕ) * frequency) ((idx / size % size : ℕ) * frequency)
    ((idx / (size * size) : ℕ) * frequency))
  constructor <;> [linarith [h.1]; linarith [h.2]]

/-- C3 amended witness: the single cell of the size-1 lattice at seed 237,
frequency 1, is within `[-1/2, 3/2]`. -/
theorem lattice_cell_bounds_witness :
    -(1/2 : ℚ) ≤ (generate_noise_lattice 237 1 1).getD 0 0 ∧
    (generate_noise_lattice 237 1 1).getD 0 0 ≤ 3/2 := by
  have hlen : 0 < (generate_noise_lattice 237 1 1).length := by
    simp [generate_noise_lattice]
  have hmem : (generate_noise_lattice 237 1 1).getD 0 0 ∈
      generate_noise_lattice 237 1 1 := by
    rw [List.getD_eq_getElem _ _ hlen]
    exact List.getElem_mem hlen
  exact lattice_cell_bounds 237 1 1 _ hmem

theorem generate_noise_lattice_getD (seed size : ℕ) (frequency : ℚ) (idx : ℕ)
    (h : idx < size * size * size) :
    (generate_noise_lattice seed size frequency).getD idx 0 =
      1/2 + 1/2 * noise (permTable seed) ((idx % size : ℕ) * frequency)
        ((idx / size % size : ℕ) * frequency)
        ((idx / (size * size) : ℕ) * frequency) := by
  unfold generate_noise_lattice
  rw [List.getD_eq_getElem _ _ (by simpa using h)]
  simp

/-- The shuffled table for seed 237 (the program's default), pinned as an
explicit literal through checkpoints of the shuffle fold (43-pair chunks, so
every single kernel evaluation stays shallow).  `pTab43` and `pTab86` are the
table contents after 43 and 86 pair steps; `pTab127` is the completed
shuffle. -/
def pTab43 : List ℕ := [4, 12, 33, 9, 6, 65, 47, 7, 23, 53, 69, 10, 25, 64, 75, 21, 66, 3, 79, 28, 74, 17, 84, 24, 63, 0, 49, 2, 34, 41, 35, 68, 42, 81, 77, 16, 22, 27, 40, 87, 62, 14, 57, 38, 80, 60, 78, 86, 44, 48, 15, 51, 39, 54, 18, 5, 70, 52, 1, 50, 19, 8, 83, 46, 29, 26, 30, 76, 72, 58, 32, 82, 61, 45, 73, 71, 55, 11, 67, 20, 59, 56, 13, 36, 31, 85, 37, 43, 88, 89, 90, 91, 92, 93, 94, 95, 96, 97, 98, 99, 100, 101, 102, 103, 104, 105, 106, 107, 108, 109, 110, 111, 112, 113, 114, 115, 116, 117, 118, 119, 120, 121, 122, 123, 124, 125, 126, 127, 128, 129, 130, 131, 132, 133, 134, 135, 136, 137, 138, 139, 140, 141, 142, 143, 144, 145, 146, 147, 148, 149, 150, 151, 152, 153, 154, 155, 156, 157, 158, 159, 160, 161, 162, 163, 164, 165, 166, 167, 168, 169, 170, 171, 172, 173, 174, 175, 176, 177, 178, 179, 180, 181, 182, 183, 184, 185, 186, 187, 188, 189, 190, 191, 192, 193, 194, 195, 196, 197, 198, 199, 200, 201, 202, 203, 204, 205, 206, 207, 208, 209, 210, 211, 212, 213, 214, 215, 216, 217, 218, 219, 220, 221, 222, 223, 224, 225, 226, 227, 228, 229, 230, 231, 232, 233, 234, 235, 236, 237, 238, 239, 240, 241, 242, 243, 244, 245, 246, 247, 248, 249, 250, 251, 252, 253, 254, 255]

def pTab86 : List ℕ := [4, 152, 33, 9, 161, 142, 47, 7, 23, 130, 132, 150, 25, 64, 75, 108, 106, 95, 151, 28, 90, 17, 102, 24, 63, 0, 49, 166, 34, 157, 35, 160, 97, 81, 170, 16, 88, 104, 40, 107, 62, 14, 118, 123, 80, 124, 78, 86, 120, 48, 117, 110, 99, 54, 18, 5, 116, 52, 1, 101, 19, 96, 167, 46, 94, 131, 138, 134, 72, 58, 122, 147, 139, 127, 73, 156, 55, 126, 67, 129, 93, 148, 13, 172, 165, 158, 37, 171, 22, 121, 74, 70, 29, 59, 140, 3, 144, 42, 159, 39, 30, 50, 84, 92, 27, 12, 66, 128, 21, 57, 51, 77, 111, 44, 85, 162, 91, 15, 98, 10, 113, 38, 32, 89, 60, 164, 11, 45, 87, 20, 168, 26, 137, 145, 154, 135, 31, 69, 143, 115, 103, 133, 65, 100, 8, 149, 136, 82, 56, 125, 119, 141, 105, 169, 153, 53, 71, 41, 114, 109, 68, 6, 163, 173, 79, 146, 2, 83, 155, 76, 112, 43, 36, 61, 174, 175, 176, 177, 178, 179, 180, 181, 182, 183, 184, 185, 186, 187, 188, 189, 190, 191, 192, 193, 194, 195, 196, 197, 198, 199, 200, 201, 202, 203, 204, 205, 206, 207, 208, 209, 210, 211, 212, 213, 214, 215, 216, 217, 218, 219, 220, 221, 222, 223, 224, 225, 226, 227, 228, 229, 230, 231, 232, 233, 234, 235, 236, 237, 238, 239, 240, 241, 242, 243, 244, 245, 246, 247, 248, 249, 250, 251, 252, 253, 254, 255]

def pTab127 : List ℕ := [4, 152, 33, 255, 161, 142, 47, 7, 23, 251, 132, 150, 25, 249, 204, 108, 106, 188, 242, 28, 228, 17, 102, 241, 63, 0, 49, 166, 34, 157, 218, 160, 97, 231, 170, 184, 212, 104, 40, 107, 62, 225, 245, 205, 209, 124, 246, 86, 217, 185, 117, 199, 213, 54, 215, 5, 116, 250, 1, 101, 19, 96, 167, 46, 94, 181, 253, 134, 200, 58, 122, 252, 139, 127, 73, 156, 55, 247, 67, 129, 93, 195, 13, 172, 165, 194, 37, 171, 22, 198, 208, 236, 248, 59, 140, 190, 144, 42, 224, 234, 30, 210, 229, 92, 27, 178, 66, 128, 21, 182, 51, 201, 111, 44, 85, 162, 91, 15, 98, 10, 207, 38, 233, 89, 60, 164, 11, 192, 87, 20, 237, 26, 137, 145, 154, 219, 240, 69, 143, 115, 103, 133, 189, 100, 216, 149, 187, 82, 56, 125, 119, 141, 105, 169, 176, 53, 71, 211, 114, 109, 68, 174, 179, 196, 79, 146, 2, 83, 155, 76, 112, 43, 36, 61, 244, 148, 153, 78, 12, 227, 120, 202, 57, 121, 16, 48, 113, 136, 95, 65, 239, 193, 45, 130, 158, 175, 243, 35, 203, 110, 72, 232, 131, 183, 75, 123, 221, 186, 74, 80, 50, 41, 88, 99, 163, 206, 8, 238, 197, 254, 29, 18, 126, 9, 159, 14, 24, 214, 90, 84, 168, 81, 77, 32, 39, 177, 70, 230, 180, 3, 31, 226, 151, 173, 6, 118, 235, 222, 220, 64, 52, 191, 147, 138, 135, 223]

theorem shuffleFold_43 : shuffleFold 237 43 = (pTab43, 1171093466) := by decide

theorem shuffleFold_chunk (m n : ℕ) :
    shuffleFold 237 (n + m) =
      (List.range' (2 + 2 * m) n 2).foldl shufflePair (shuffleFold 237 m) := by
  unfold shuffleFold
  rw [← List.range'_append 2 m n 2, List.foldl_append]

theorem shuffleFold_86 : shuffleFold 237 86 = (pTab86, 1041980307) := by
  rw [show (86 : ℕ) = 43 + 43 from rfl, shuffleFold_chunk 43 43, shuffleFold_43]
  decide

theorem shuffleFold_127 : shuffleFold 237 127 = (pTab127, 1844389378) := by
  rw [show (127 : ℕ) = 41 + 86 from rfl, shuffleFold_chunk 86 41, shuffleFold_86]
  decide

theorem permTable_237_eq : permTable 237 = pTab127 ++ pTab127 := by
  unfold permTable permList
  rw [shuffleFold_127]

/-- The raw noise value at the sample point `(24219/256, 6279/256, 4485/256)`
with the seed-237 table exceeds 1 (it equals
`1.011728…`, exact value `10758539007344013744408276789925662657 /
2¹²³`). -/
theorem noise_at_sample_point :
    1 < noise (permTable 237) (24219/256) (6279/256) (4485/256) := by
  have tX : (⌊(24219/256 : ℚ)⌋ % 256).toNat = 94 := by norm_num; rfl
  have tY : (⌊(6279/256 : ℚ)⌋ % 256).toNat = 24 := by norm_num; rfl
  have tZ : (⌊(4485/256 : ℚ)⌋ % 256).toNat = 17 := by norm_num; rfl
  have e1 : (pTab127 ++ pTab127).getD 94 0 = 140 := by decide
  have e2 : (pTab127 ++ pTab127).getD (94 + 1) 0 = 190 := by decide
  have g1 : (pTab127 ++ pTab127).getD ((pTab127 ++ pTab127).getD ((pTab127 ++ pTab127).getD 94 0 + 24) 0 + 17) 0 = 144 := by decide
  have g2 : (pTab127 ++ pTab127).getD ((pTab127 ++ pTab127).getD ((pTab127 ++ pTab127).getD (94 + 1) 0 + 24) 0 + 17) 0 = 120 := by decide
  have g3 : (pTab127 ++ pTab127).getD ((pTab127 ++ pTab127).getD ((pTab127 ++ pTab127).getD 94 0 + 24 + 1) 0 + 17) 0 = 196 := by decide
  have g4 : (pTab127 ++ pTab127).getD ((pTab127 ++ pTab127).getD ((pTab127 ++ pTab127).getD (94 + 1) 0 + 24 + 1) 0 + 17) 0 = 9 := by decide
  have g5 : (pTab127 ++ pTab127).getD ((pTab127 ++ pTab127).getD ((pTab127 ++ pTab127).getD 94 0 + 24) 0 + 17 + 1) 0 = 42 := by decide
  have g6 : (pTab127 ++ pTab127).getD ((pTab127 ++ pTab127).getD ((pTab127 ++ pTab127).getD (94 + 1) 0 + 24) 0 + 17 + 1) 0 = 202 := by decide
  have g7 : (pTab127 ++ pTab127).getD ((pTab127 ++ pTab127).getD ((pTab127 ++ pTab127).getD 94 0 + 24 + 1) 0 + 17 + 1) 0 = 79 := by decide
  have g8 : (pTab127 ++ pTab127).getD ((pTab127 ++ pTab127).getD ((pTab127 ++ pTab127).getD (94 + 1) 0 + 24 + 1) 0 + 17 + 1) 0 = 159 := by decide
  rw [permTable_237_eq]
  simp only [noise]
  rw [tX, tY, tZ, g1, g2, g3, g4, g5, g6, g7, g8]
  norm_num [fade, lerp, grad]

/-- C3 counterexample: at the program's default seed 237, size 32 and
frequency `897/256` (a size and index range comfortably inside the source's
32-bit `int` arithmetic — the program itself runs size 256 — and a frequency
exactly representable in `float`), the lattice cell at
`(x, y, z) = (27, 7, 5)` (index `5·32² + 7·32 + 27 = 5371`) stores
`0.5 + 0.5·noise > 1`, because the raw noise value at its sample point
`(24219/256, 6279/256, 4485/256)` is `1.011728… > 1`.  The permutation table
is the one the program computes when built against libstdc++ (GCC/MinGW, a
toolchain named in the source header): `std::default_random_engine` is
`minstd_rand0` and `std::shuffle` is embedded above instruction-for-
instruction from `bits/stl_algo.h` and `bits/uniform_int_dist.h`. -/
theorem lattice_cell_out_of_range :
    1 < (generate_noise_lattice 237 32 (897/256)).getD
      (5 * 32 ^ 2 + 7 * 32 + 27) 0 := by
  have h := generate_noise_lattice_getD 237 32 (897/256)
    (5 * 32 ^ 2 + 7 * 32 + 27) (by norm_num)
  norm_num at h ⊢
  rw [h]
  linarith [noise_at_sample_point]

/-! ### Animation state machine -/

theorem stepSpace_of_up (s : AnimState) (f : InputFrame) (h : f.space = false) :
    stepSpace s f = { s with keySpacePressed := false } := by
  simp [stepSpace, h]

theorem stepSpace_toggle (s : AnimState) (f : InputFrame) (hs : f.space = true)
    (hk : s.keySpacePressed = false) :
    stepSpace s f =
      { s with paused := !s.paused,
               baseTime := if !s.paused then f.wallTime else s.baseTime,
               keySpacePressed := true } := by
  simp [stepSpace, hs, hk]

theorem stepSpace_held (s : AnimState) (f : InputFrame) (hs : f.space = true)
    (hk : s.keySpacePressed = true) : stepSpace s f = s := by
  simp [stepSpace, hs, hk]

theorem stepSpace_speed (s : AnimState) (f : InputFrame) :
    (stepSpace s f).speed = s.speed := by
  unfold stepSpace
  split_ifs <;> rfl

theorem stepSpeedUp_of_up (s : AnimState) (f : InputFrame) (h : f.plus = false) :
    stepSpeedUp s f = s := by
  simp [stepSpeedUp, h]

theorem stepSpeedUp_on (s : AnimState) (f : InputFrame) (h : f.plus = true) :
    stepSpeedUp s f = { s with speed := min (s.speed + 1/10) 3 } := by
  simp [stepSpeedUp, h]

theorem stepSpeedUp_paused (s : AnimState) (f : InputFrame) :
    (stepSpeedUp s f).paused = s.paused := by
  unfold stepSpeedUp
  split_ifs <;> rfl

theorem stepSpeedUp_baseTime (s : AnimState) (f : InputFrame) :
    (stepSpeedUp s f).baseTime = s.baseTime := by
  unfold stepSpeedUp
  split_ifs <;> rfl

theorem speedUp_val (s : AnimState) (f : InputFrame) :
    (stepSpeedUp s f).speed = if f.plus then min (s.speed + 1/10) 3 else s.speed := by
  unfold stepSpeedUp
  split_ifs <;> rfl

theorem stepSpeedDown_of_up (s : AnimState) (f : InputFrame) (h : f.minus = false) :
    stepSpeedDown s f = s := by
  simp [stepSpeedDown, h]

theorem stepSpeedDown_on (s : AnimState) (f : InputFrame) (h : f.minus = true) :
    stepSpeedDown s f = { s with speed := max (s.speed - 1/10) (1/10) } := by
  simp [stepSpeedDown, h]

theorem stepSpeedDown_paused (s : AnimState) (f : InputFrame) :
    (stepSpeedDown s f).paused = s.paused := by
  unfold stepSpeedDown
  split_ifs <;> rfl

theorem stepSpeedDown_baseTime (s : AnimState) (f : InputFrame) :
    (stepSpeedDown s f).baseTime = s.baseTime := by
  unfold stepSpeedDown
  split_ifs <;> rfl

theorem speedDown_val (s : AnimState) (f : InputFrame) :
    (stepSpeedDown s f).speed =
      if f.minus then max (s.speed - 1/10) (1/10) else s.speed := by
  unfold stepSpeedDown
  split_ifs <;> rfl

theorem stepColor_of_up (s : AnimState) (f : InputFrame) (h : f.cKey = false) :
    stepColor s f = { s with keyCPressed := false } := by
  simp [stepColor, h]

theorem stepColor_fire (s : AnimState) (f : InputFrame) (hcK : f.cKey = true)
    (hk : s.keyCPressed = false) :
    stepColor s f = { s with colorMode := (s.colorMode + 1) % 3, keyCPressed := true } := by
  simp [stepColor, hcK, hk]

theorem stepColor_held (s : AnimState) (f : InputFrame) (hcK : f.cKey = true)
    (hk : s.keyCPressed = true) : stepColor s f = s := by
  simp [stepColor, hcK, hk]

theorem stepColor_paused (s : AnimState) (f : InputFrame) :
    (stepColor s f).paused = s.paused := by
  unfold stepColor
  split_ifs <;> rfl

theorem stepColor_baseTime (s : AnimState) (f : InputFrame) :
    (stepColor s f).baseTime = s.baseTime := by
  unfold stepColor
  split_ifs <;> rfl

theorem stepColor_speed (s : AnimState) (f : InputFrame) :
    (stepColor s f).speed = s.speed := by
  unfold stepColor
  split_ifs <;> rfl

theorem stepReset_of_up (s : AnimState) (f : InputFrame) (h : f.rKey = false) :
    stepReset s f = { s with keyRPressed := false } := by
  simp [stepReset, h]

theorem stepReset_fire (s : AnimState) (f : InputFrame) (hrK : f.rKey = true)
    (hk : s.keyRPressed = false) :
    stepReset s f =
      { s with speed := 1, colorMode := 0, paused := false, keyRPressed := true } := by
  simp [stepReset, hrK, hk]

theorem stepReset_held (s : AnimState) (f : InputFrame) (hrK : f.rKey = true)
    (hk : s.keyRPressed = true) : stepReset s f = s := by
  simp [stepReset, hrK, hk]

theorem reset_speed_val (s : AnimState) (f : InputFrame) :
    (stepReset s f).speed =
      if f.rKey then (if !s.keyRPressed then 1 else s.speed) else s.speed := by
  unfold stepReset
  split_ifs <;> rfl

theorem stepInput_preserves_frozen (s : AnimState) (f : InputFrame)
    (hsp : f.space = false) (hc : f.cKey = false) (hr : f.rKey = false) :
    (stepInput s f).paused = s.paused ∧ (stepInput s f).baseTime = s.baseTime := by
  unfold stepInput
  rw [stepSpace_of_up _ _ hsp, stepColor_of_up _ _ hc, stepReset_of_up _ _ hr]
  constructor <;>
    simp [stepSpeedUp_paused, stepSpeedDown_paused, stepSpeedUp_baseTime,
      stepSpeedDown_baseTime]

theorem stepInput_toggle_on (s : AnimState) (f : InputFrame)
    (hplay : s.paused = false) (hkey : s.keySpacePressed = false)
    (hspace : f.space = true) (hr : f.rKey = false) :
    (stepInput s f).paused = true ∧ (stepInput s f).baseTime = f.wallTime := by
  unfold stepInput
  rw [stepSpace_toggle _ _ hspace hkey, stepReset_of_up _ _ hr]
  constructor <;>
    simp [stepColor_paused, stepColor_baseTime, stepSpeedUp_paused,
      stepSpeedDown_paused, stepSpeedUp_baseTime, stepSpeedDown_baseTime, hplay]

theorem frameTimes_frozen (s : AnimState) (fs : List InputFrame)
    (hp : s.paused = true)
    (hidle : ∀ f ∈ fs, f.space = false ∧ f.cKey = false ∧ f.rKey = false) :
    ∀ t ∈ frameTimes s fs, t = s.baseTime := by
  induction fs generalizing s with
  | nil => intro t ht; simp [frameTimes] at ht
  | cons f fs ih =>
      obtain ⟨h1, h2, h3⟩ := hidle f (List.mem_cons_self f fs)
      obtain ⟨hpp, hbb⟩ := stepInput_preserves_frozen s f h1 h2 h3
      intro t ht
      simp only [frameTimes, List.mem_cons] at ht
      rcases ht with rfl | ht
      · simp [frameTime, hpp, hp, hbb]
      · have := ih (stepInput s f) (by rw [hpp, hp])
          (fun g hg => hidle g (List.mem_cons_of_mem f hg)) t ht
        rw [this, hbb]

/-- C4: if the pause toggle fires at a tick whose wall clock reads `T1`
(Playing→Paused), then that frame and every subsequent frame (as long as no
other key goes down, whatever the wall clock does) evaluates the composite
with `time = T1`. -/
theorem pause_freeze (s : AnimState) (f0 : InputFrame) (fs : List InputFrame)
    (hplay : s.paused = false) (hkey : s.keySpacePressed = false)
    (hspace : f0.space = true) (hr : f0.rKey = false)
    (hidle : ∀ f ∈ fs, f.space = false ∧ f.cKey = false ∧ f.rKey = false) :
    frameTime (stepInput s f0) f0 = f0.wallTime ∧
    ∀ t ∈ frameTimes (stepInput s f0) fs, t = f0.wallTime := by
  obtain ⟨hpp, hbb⟩ := stepInput_toggle_on s f0 hplay hkey hspace hr
  refine ⟨by simp [frameTime, hpp, hbb], fun t ht => ?_⟩
  rw [frameTimes_frozen (stepInput s f0) fs hpp hidle t ht, hbb]

/-- Concrete frames for the state-machine scenarios. -/
def spaceFrameAt (t : ℚ) : InputFrame := ⟨true, false, false, false, false, t⟩

def idleFrameAt (t : ℚ) : InputFrame := ⟨false, false, false, false, false, t⟩

def cFrameAt (t : ℚ) : InputFrame := ⟨false, false, false, true, false, t⟩

def rFrameAt (t : ℚ) : InputFrame := ⟨false, false, false, false, true, t⟩

def plusFrameAt (t : ℚ) : InputFrame := ⟨false, true, false, false, false, t⟩

def minusFrameAt (t : ℚ) : InputFrame := ⟨false, false, true, false, false, t⟩

/-- C4 witness: pause at wall time 1, then an idle frame at wall time 5 —
both frames use time 1. -/
theorem pause_freeze_witness :
    frameTime (stepInput initState (spaceFrameAt 1)) (spaceFrameAt 1) =
      (spaceFrameAt 1).wallTime ∧
    ∀ t ∈ frameTimes (stepInput initState (spaceFrameAt 1)) [idleFrameAt 5],
      t = (spaceFrameAt 1).wallTime :=
  pause_freeze initState (spaceFrameAt 1) [idleFrameAt 5] rfl rfl rfl rfl
    (by
      intro f hf
      simp only [List.mem_singleton] at hf
      subst hf
      exact ⟨rfl, rfl, rfl⟩)

/-- C5 counterexample: pause at wall time 1 (frozen reference 1), stay paused
through wall time 3, un-pause at wall time 5 — the first frame after
un-pausing uses time 5 (the current wall clock), not the frozen reference 1:
the time jumps forward by the pause duration. -/
theorem unpause_time_jumps_cex :
    frameTimes initState [spaceFrameAt 1, idleFrameAt 3, spaceFrameAt 5] =
      [1, 1, 5] ∧ (5 : ℚ) ≠ 1 :=
  ⟨rfl, by norm_num⟩

/-- C5 amended: the Paused→Playing transition does not resume from the frozen
reference — the first frame after un-pausing uses the wall clock of the
un-pausing tick itself, which exceeds the frozen reference by however long the
wall clock advanced during the pause. -/
theorem unpause_resumes_wall_clock (s : AnimState) (f : InputFrame)
    (hp : s.paused = true) (hkey : s.keySpacePressed = false)
    (hspace : f.space = true) (hr : f.rKey = false) :
    (stepInput s f).paused = false ∧
    frameTime (stepInput s f) f = f.wallTime := by
  have h1 : (stepInput s f).paused = false := by
    unfold stepInput
    rw [stepSpace_toggle _ _ hspace hkey, stepReset_of_up _ _ hr]
    simp [stepColor_paused, stepSpeedUp_paused, stepSpeedDown_paused, hp]
  exact ⟨h1, by simp [frameTime, h1]⟩

def pausedState : AnimState :=
  { paused := true, baseTime := 1, speed := 1, colorMode := 0,
    keySpacePressed := false, keyCPressed := false, keyRPressed := false }

/-- C5 amended witness: from a paused state frozen at 1, the un-pausing frame
at wall time 5 unpauses and uses time 5. -/
theorem unpause_resumes_wall_clock_witness :
    (stepInput pausedState (spaceFrameAt 5)).paused = false ∧
    frameTime (stepInput pausedState (spaceFrameAt 5)) (spaceFrameAt 5) =
      (spaceFrameAt 5).wallTime :=
  unpause_resumes_wall_clock pausedState (spaceFrameAt 5) rfl rfl rfl rfl

/-- C6 counterexample: holding the speed-up key for two consecutive polling
ticks from the initial state raises the speed twice, to `1.2` — not once to
`1.1` as an edge-triggered transition would: the speed transitions fire once
per polling tick held. -/
theorem speed_up_fires_per_tick_cex :
    (run initState [plusFrameAt 0, plusFrameAt 0]).speed = 6/5 ∧
    (6/5 : ℚ) ≠ 1 + 1/10 := by
  constructor
  · have h : (run initState [plusFrameAt 0, plusFrameAt 0]).speed =
        min (min ((1 : ℚ) + 1/10) 3 + 1/10) 3 := rfl
    rw [h]
    norm_num
  · norm_num

/-- C6 amended: the pause-toggle, colour-cycle and reset transitions are
edge-triggered — a key held over two consecutive polling ticks fires the
transition exactly once, at the first tick — while speed up and speed down
are level-triggered and fire once per polling tick the key is held. -/
theorem edge_and_level_triggered (s : AnimState) (t1 t2 : ℚ)
    (hsp : s.keySpacePressed = false) (hc : s.keyCPressed = false)
    (hr : s.keyRPressed = false) :
    (run s [spaceFrameAt t1, spaceFrameAt t2]).paused = !s.paused ∧
    (run s [cFrameAt t1, cFrameAt t2]).colorMode = (s.colorMode + 1) % 3 ∧
    (run s [rFrameAt t1, rFrameAt t2]).speed = 1 ∧
    (run s [rFrameAt t1, rFrameAt t2]).colorMode = 0 ∧
    (run s [rFrameAt t1, rFrameAt t2]).paused = false ∧
    (run s [plusFrameAt t1, plusFrameAt t2]).speed =
      min (min (s.speed + 1/10) 3 + 1/10) 3 ∧
    (run s [minusFrameAt t1, minusFrameAt t2]).speed =
      max (max (s.speed - 1/10) (1/10) - 1/10) (1/10) := by
  refine ⟨?_, ?_, ?_, ?_, ?_, ?_, ?_⟩ <;>
    simp [run, stepInput, spaceFrameAt, cFrameAt, rFrameAt, plusFrameAt,
      minusFrameAt, stepSpace_of_up, stepSpace_toggle, stepSpace_held,
      stepSpeedUp_of_up, stepSpeedUp_on, stepSpeedDown_of_up, stepSpeedDown_on,
      stepColor_of_up, stepColor_fire, stepColor_held, stepReset_of_up,
      stepReset_fire, stepReset_held, hsp, hc, hr]

/-- C6 amended witness at the initial state. -/
theorem edge_and_level_triggered_witness :
    (run initState [spaceFrameAt 0, spaceFrameAt 1]).paused = !initState.paused ∧
    (run initState [cFrameAt 0, cFrameAt 1]).colorMode =
      (initState.colorMode + 1) % 3 ∧
    (run initState [rFrameAt 0, rFrameAt 1]).speed = 1 ∧
    (run initState [rFrameAt 0, rFrameAt 1]).colorMode = 0 ∧
    (run initState [rFrameAt 0, rFrameAt 1]).paused = false ∧
    (run initState [plusFrameAt 0, plusFrameAt 1]).speed =
      min (min (initState.speed + 1/10) 3 + 1/10) 3 ∧
    (run initState [minusFrameAt 0, minusFrameAt 1]).speed =
      max (max (initState.speed - 1/10) (1/10) - 1/10) (1/10) :=
  edge_and_level_triggered initState 0 1 rfl rfl rfl

theorem stepInput_speed_bounds (s : AnimState) (f : InputFrame)
    (h1 : 1/10 ≤ s.speed) (h2 : s.speed ≤ 3) :
    1/10 ≤ (stepInput s f).speed ∧ (stepInput s f).speed ≤ 3 := by
  unfold stepInput
  rw [reset_speed_val, stepColor_speed, speedDown_val, speedUp_val, stepSpace_speed]
  set u : ℚ := if f.plus then min (s.speed + 1/10) 3 else s.speed with hu
  have hU : 1/10 ≤ u ∧ u ≤ 3 := by
    rw [hu]
    split_ifs
    · exact ⟨le_min (by linarith) (by norm_num), min_le_right _ _⟩
    · exact ⟨h1, h2⟩
  set d : ℚ := if f.minus then max (u - 1/10) (1/10) else u with hd
  have hD : 1/10 ≤ d ∧ d ≤ 3 := by
    rw [hd]
    split_ifs
    · exact ⟨le_max_right _ _, max_le (by linarith [hU.2]) (by norm_num)⟩
    · exact hU
  split_ifs
  · exact ⟨by norm_num, by norm_num⟩
  · exact hD
  · exact hD

/-- C7: every transition keeps the speed within `[0.1, 3.0]`, and fifty
speed-up ticks from the initial speed `1.0` yield exactly `3.0`. -/
theorem speed_clamp (s : AnimState) (f : InputFrame)
    (h1 : 1/10 ≤ s.speed) (h2 : s.speed ≤ 3) :
    (1/10 ≤ (stepInput s f).speed ∧ (stepInput s f).speed ≤ 3) ∧
    (run initState (List.replicate 50 (plusFrameAt 0))).speed = 3 := by
  refine ⟨stepInput_speed_bounds s f h1 h2, ?_⟩
  have hplus : ∀ (st : AnimState) (t : ℚ),
      (stepInput st (plusFrameAt t)).speed = min (st.speed + 1/10) 3 := by
    intro st t
    unfold stepInput
    rw [reset_speed_val, stepColor_speed, speedDown_val, speedUp_val, stepSpace_speed]
    simp [plusFrameAt]
  have hthree : ∀ (n : ℕ) (st : AnimState), st.speed = 3 →
      (run st (List.replicate n (plusFrameAt 0))).speed = 3 := by
    intro n
    induction n with
    | zero => intro st h; simpa [run] using h
    | succ n ih =>
        intro st h
        rw [List.replicate_succ]
        exact ih _ (by rw [hplus, h]; norm_num)
  have hrep : List.replicate 50 (plusFrameAt 0) =
      List.replicate 20 (plusFrameAt 0) ++ List.replicate 30 (plusFrameAt 0) := rfl
  have h20 : (run initState (List.replicate 20 (plusFrameAt 0))).speed = 3 := by
    have hr20 : List.replicate 20 (plusFrameAt 0) =
        [plusFrameAt 0, plusFrameAt 0, plusFrameAt 0, plusFrameAt 0,
         plusFrameAt 0, plusFrameAt 0, plusFrameAt 0, plusFrameAt 0,
         plusFrameAt 0, plusFrameAt 0, plusFrameAt 0, plusFrameAt 0,
         plusFrameAt 0, plusFrameAt 0, plusFrameAt 0, plusFrameAt 0,
         plusFrameAt 0, plusFrameAt 0, plusFrameAt 0, plusFrameAt 0] := rfl
    rw [hr20]
    simp only [run, List.foldl_cons, List.foldl_nil, hplus]
    norm_num [initState]
  rw [hrep]
  unfold run at h20 ⊢
  rw [List.foldl_append]
  exact hthree 30 _ h20

/-- C7 witness: the bound holds at the initial state under a speed-up frame,
and the fifty-tick scenario lands exactly on 3. -/
theorem speed_clamp_witness :
    ((1 : ℚ)/10 ≤ (stepInput initState (plusFrameAt 0)).speed ∧
      (stepInput initState (plusFrameAt 0)).speed ≤ 3) ∧
    (run initState (List.replicate 50 (plusFrameAt 0))).speed = 3 :=
  speed_clamp initState (plusFrameAt 0) (by norm_num [initState]) (by norm_num [initState])

/-! ### Shader mathematics -/

theorem scale3_scale3 (c d : ℚ) (q : ℚ × ℚ × ℚ) :
    scale3 c (scale3 d q) = scale3 (c * d) q := by
  obtain ⟨x, y, z⟩ := q
  simp [scale3, mul_assoc]

theorem scale3_one (q : ℚ × ℚ × ℚ) : scale3 1 q = q := by
  obtain ⟨x, y, z⟩ := q
  simp [scale3]

/-- C8: the FBM loop evaluates to the six-octave sum
`Σ_{i<6} 0.5^(i+1) · tex(2^i · p)`: every octave doubles the sampling
frequency and halves the amplitude, starting from amplitude `0.5`. -/
theorem fbm_eq_octave_sum (tex : ℚ × ℚ × ℚ → ℚ) (p : ℚ × ℚ × ℚ) :
    fbm tex p = ∑ i ∈ Finset.range 6, (1/2 : ℚ) ^ (i + 1) * tex (scale3 (2 ^ i) p) := by
  simp only [fbm, fbmLoop, Finset.sum_range_succ, Finset.sum_range_zero,
    scale3_scale3, pow_succ, pow_zero, scale3_one]
  norm_num [scale3_scale3]

/-- C9: the easing function is the quintic `6t⁵ − 15t⁴ + 10t³` with
`fade 0 = 0`, `fade 1 = 1`, and vanishing first and second derivatives at
both `t = 0` and `t = 1`. -/
theorem fade_quintic_flat_ends :
    (∀ t : ℝ, fade t = 6 * t ^ 5 - 15 * t ^ 4 + 10 * t ^ 3) ∧
    fade (0 : ℝ) = 0 ∧ fade (1 : ℝ) = 1 ∧
    deriv (fade : ℝ → ℝ) 0 = 0 ∧ deriv (fade : ℝ → ℝ) 1 = 0 ∧
    deriv (deriv (fade : ℝ → ℝ)) 0 = 0 ∧ deriv (deriv (fade : ℝ → ℝ)) 1 = 0 := by
  have hfun : (fade : ℝ → ℝ) = fun t => 6 * t ^ 5 - 15 * t ^ 4 + 10 * t ^ 3 := by
    funext t
    unfold fade
    ring
  have hd1 : ∀ t : ℝ,
      HasDerivAt (fade : ℝ → ℝ) (30 * t ^ 4 - 60 * t ^ 3 + 30 * t ^ 2) t := by
    intro t
    rw [hfun]
    have h := (((hasDerivAt_pow 5 t).const_mul (6 : ℝ)).sub
      ((hasDerivAt_pow 4 t).const_mul (15 : ℝ))).add
      ((hasDerivAt_pow 3 t).const_mul (10 : ℝ))
    convert h using 1
    push_cast
    ring
  have hderiv1 : deriv (fade : ℝ → ℝ) =
      fun t : ℝ => 30 * t ^ 4 - 60 * t ^ 3 + 30 * t ^ 2 :=
    funext fun t => (hd1 t).deriv
  have hd2 : ∀ t : ℝ,
      HasDerivAt (deriv (fade : ℝ → ℝ)) (120 * t ^ 3 - 180 * t ^ 2 + 60 * t) t := by
    intro t
    rw [hderiv1]
    have h := (((hasDerivAt_pow 4 t).const_mul (30 : ℝ)).sub
      ((hasDerivAt_pow 3 t).const_mul (60 : ℝ))).add
      ((hasDerivAt_pow 2 t).const_mul (30 : ℝ))
    convert h using 1
    push_cast
    ring
  refine ⟨fun t => by rw [hfun], by unfold fade; norm_num, by unfold fade; norm_num,
    ?_, ?_, ?_, ?_⟩
  · rw [hderiv1]; norm_num
  · rw [hderiv1]; norm_num
  · rw [(hd2 0).deriv]; norm_num
  · rw [(hd2 1).deriv]; norm_num

end FireSmoke
